import Mathlib

/-!
Shallow embedding of the `champollion` repository: a SearxNG search client
(`internal/search/searxng`, file `part_001`) and an environment-variable
resolver (`pkg/env/env.go`).  Go strings are modelled as Lean `String`s,
byte-level operations (query escaping, byte-wise string comparison) go
through an explicit UTF-8 encoding into `List Nat`.
-/

namespace Champollion

/-- UTF-8 encoding of one character as a list of byte values (each < 256).
Models how a Go `string` stores a Unicode code point as bytes. -/
def utf8Bytes (c : Char) : List Nat :=
  let n := c.toNat
  if n < 0x80 then [n]
  else if n < 0x800 then [0xC0 + n / 64, 0x80 + n % 64]
  else if n < 0x10000 then [0xE0 + n / 4096, 0x80 + (n / 64) % 64, 0x80 + n % 64]
  else [0xF0 + n / 0x40000, 0x80 + (n / 4096) % 64, 0x80 + (n / 64) % 64, 0x80 + n % 64]

/-- The byte sequence of a Go string (UTF-8). -/
def strBytes (s : String) : List Nat :=
  (s.toList.map utf8Bytes).flatten

/-- Bytes left unescaped by Go `net/url.QueryEscape` (mode
`encodeQueryComponent` of `shouldEscape`): ASCII alphanumerics and
`-` `_` `.` `~`. -/
def isQueryUnreserved (b : Nat) : Bool :=
  (65 ≤ b && b ≤ 90) || (97 ≤ b && b ≤ 122) || (48 ≤ b && b ≤ 57) ||
    b == 45 || b == 95 || b == 46 || b == 126

/-- Uppercase hexadecimal digit, as used by `net/url`'s percent-escaping. -/
def hexDigit (n : Nat) : Char :=
  if n < 10 then Char.ofNat (48 + n) else Char.ofNat (55 + n)

/-- Escape a single byte as `net/url.QueryEscape` does: unreserved bytes
pass through, space becomes `+`, everything else becomes `%XX`. -/
def escapeByte (b : Nat) : String :=
  if isQueryUnreserved b then String.singleton (Char.ofNat b)
  else if b == 32 then "+"
  else String.mk ['%', hexDigit (b / 16), hexDigit (b % 16)]

/-- Model of Go `net/url.QueryEscape` (byte-wise over the UTF-8 bytes). -/
def queryEscape (s : String) : String :=
  String.join ((strBytes s).map escapeByte)

/-- Lexicographic order on byte sequences: the order Go's `<` on strings
(and `slices.Sort` of the keys in `url.Values.Encode`) uses. -/
def bytesLt : List Nat → List Nat → Bool
  | [], [] => false
  | [], _ :: _ => true
  | _ :: _, [] => false
  | a :: as, b :: bs => if a < b then true else if b < a then false else bytesLt as bs

/-- Go's byte-wise `<` on strings. -/
def goStrLt (a b : String) : Bool :=
  bytesLt (strBytes a) (strBytes b)

/-- Model of Go `url.Values` restricted to what `Search` builds: every key
is `Set` (not `Add`ed), so each key carries exactly one value; the map is
an association list with pairwise-distinct keys. -/
abbrev Values := List (String × String)

/-- Model of `url.Values.Set`: replace any existing entry for `key` with
the single value `value`. -/
def Values.set (v : Values) (key value : String) : Values :=
  v.filter (fun p => p.1 != key) ++ [(key, value)]

/-- The value stored for `key`, if any (presence of a parameter). -/
def Values.get (v : Values) (key : String) : Option String :=
  (v.find? (fun p => p.1 == key)).map (fun p => p.2)

/-- Insert a pair into a list sorted by key under `goStrLt`. -/
def insertPair (p : String × String) : List (String × String) → List (String × String)
  | [] => [p]
  | q :: rest => if goStrLt p.1 q.1 then p :: q :: rest else q :: insertPair p rest

/-- Sort the entries of a `Values` by key.  Models the `slices.Sort(keys)`
step of `url.Values.Encode`; on the pairwise-distinct keys produced by
`Values.set` every comparison sort yields this same list. -/
def sortPairs : List (String × String) → List (String × String)
  | [] => []
  | p :: rest => insertPair p (sortPairs rest)

/-- Join encoded `key=value` pieces with `&`, as `Encode`'s buffer loop does. -/
def joinAmp : List String → String
  | [] => ""
  | [x] => x
  | x :: y :: xs => x ++ "&" ++ joinAmp (y :: xs)

/-- Model of `url.Values.Encode`: keys sorted ascending, each entry emitted
as `QueryEscape(key)=QueryEscape(value)`, joined by `&`. -/
def Values.encode (v : Values) : String :=
  joinAmp ((sortPairs v).map (fun p => queryEscape p.1 ++ "=" ++ queryEscape p.2))

/-- Join strings with a separator, as Go `strings.Join` does. -/
def goJoin (sep : String) : List String → String
  | [] => ""
  | [x] => x
  | x :: y :: xs => x ++ sep ++ goJoin sep (y :: xs)

/-- Structure `SearchOptions` from `part_001`: categories, engines, language, page
number.  Go's zero values (nil slices, empty string, zero int) are `[]`,
`""`, `0`. -/
structure SearchOptions where
  categories : List String
  engines : List String
  language : String
  pageNo : Int
deriving Repr, DecidableEq

/-- The query-parameter set `Search` builds (lines 66-88 of `part_001`):
always `format=json` and `q=<query>`; when options are present, each of the
four optional parameters is set only under its guard. -/
def buildParams (query : String) (opts : Option SearchOptions) : Values :=
  let params : Values := []
  let params := params.set "format" "json"
  let params := params.set "q" query
  match opts with
  | none => params
  | some o =>
    let params := if o.categories.length > 0 then
        params.set "categories" (goJoin "," o.categories) else params
    let params := if o.engines.length > 0 then
        params.set "engines" (goJoin "," o.engines) else params
    let params := if o.language != "" then params.set "language" o.language else params
    let params := if o.pageNo > 0 then params.set "pageno" (toString o.pageNo) else params
    params

/-! ## Model of `net/url` URL parsing, joining and printing

`Search` calls `url.Parse`, `URL.JoinPath`, sets `RawQuery` and calls
`URL.String` (and `http.NewRequest` re-parses the printed URL).  We model
the `net/url` slice these calls exercise.  Simplifications, each noted at
its definition: paths, hosts, userinfo and fragments are stored in their
escaped (raw) form rather than as decoded-plus-raw pairs, so `EscapedPath`
is the stored string; percent-escape validity is still checked where Go
checks it. -/

/-- Go `URL` struct restricted to the fields `Search` can exercise.
`path`, `user`, `host` and `fragment` hold the escaped/raw text;
`hasUser` models `User != nil`. -/
structure URL where
  scheme : String := ""
  opaquePart : String := ""
  hasUser : Bool := false
  user : String := ""
  host : String := ""
  path : String := ""
  omitHost : Bool := false
  forceQuery : Bool := false
  rawQuery : String := ""
  fragment : String := ""
deriving Repr, DecidableEq

/-- Test `strings.HasPrefix`, on character lists so that it reduces. -/
def strStartsWith (s pre : String) : Bool :=
  pre.toList.isPrefixOf s.toList

/-- Test `strings.HasSuffix`, on character lists so that it reduces. -/
def strEndsWith (s suf : String) : Bool :=
  suf.toList.reverse.isPrefixOf s.toList.reverse

/-- Split a character list at the first occurrence of `c`
(`strings.Cut`); the separator is dropped. -/
def cutAtChar (c : Char) : List Char → Option (List Char × List Char)
  | [] => none
  | x :: xs =>
    if x = c then some ([], xs)
    else match cutAtChar c xs with
      | none => none
      | some (pre, post) => some (x :: pre, post)

/-- Split at the last occurrence of `c` (`strings.LastIndex`). -/
def cutLastChar (c : Char) (l : List Char) : Option (List Char × List Char) :=
  match cutAtChar c l.reverse with
  | none => none
  | some (postRev, preRev) => some (preRev.reverse, postRev.reverse)

/-- Check `stringContainsCTLByte`: any byte below 0x20 or equal to 0x7f.  On the
character level this is the same test, since UTF-8 bytes of non-ASCII
characters are all ≥ 0x80. -/
def containsCTL (s : String) : Bool :=
  s.toList.any (fun c => c.toNat < 0x20 || c.toNat == 0x7f)

def isSchemeLetter (c : Char) : Bool :=
  (decide ('a' ≤ c) && decide (c ≤ 'z')) || (decide ('A' ≤ c) && decide (c ≤ 'Z'))

/-- Loop body of Go `getScheme`: `acc` is the reversed scheme candidate
consumed so far, `orig` the whole input (returned when no scheme is
found). -/
def getSchemeAux (orig : String) : List Char → List Char → Except String (String × String)
  | _, [] => .ok ("", orig)
  | acc, c :: rest =>
    if isSchemeLetter c then getSchemeAux orig (c :: acc) rest
    else if c.isDigit || c = '+' || c = '-' || c = '.' then
      if acc.isEmpty then .ok ("", orig) else getSchemeAux orig (c :: acc) rest
    else if c = ':' then
      if acc.isEmpty then .error "missing protocol scheme"
      else .ok (String.mk acc.reverse, String.mk rest)
    else .ok ("", orig)

/-- Model of `net/url`'s `getScheme`. -/
def getScheme (rawURL : String) : Except String (String × String) :=
  getSchemeAux rawURL [] rawURL.toList

/-- ASCII lowercasing of a scheme (`strings.ToLower`; scheme characters
are always ASCII). -/
def lowerASCII (s : String) : String :=
  String.mk (s.toList.map Char.toLower)

def isHexChar (c : Char) : Bool :=
  c.isDigit || (decide ('a' ≤ c) && decide (c ≤ 'f')) || (decide ('A' ≤ c) && decide (c ≤ 'F'))

/-- The malformed-percent-escape check of `net/url.unescape`: every `%`
must be followed by two hex digits. -/
def validPercents : List Char → Bool
  | [] => true
  | '%' :: a :: b :: rest => isHexChar a && isHexChar b && validPercents rest
  | '%' :: _ => false
  | _ :: rest => validPercents rest

/-- Predicate `validUserinfo` from `net/url`. -/
def validUserinfo (s : String) : Bool :=
  s.toList.all fun c =>
    c.isAlpha || c.isDigit ||
      c ∈ ['-', '.', '_', ':', '~', '!', '$', '&', '\'', '(', ')', '*', '+', ',', ';', '=', '%', '@']

/-- Hex-digit test on a byte value (`ishex` from `net/url`). -/
def isHexByte (b : Nat) : Bool :=
  (48 ≤ b && b ≤ 57) || (97 ≤ b && b ≤ 102) || (65 ≤ b && b ≤ 70)

/-- Value of a hex digit byte (`unhex` from `net/url`). -/
def hexValByte (b : Nat) : Nat :=
  if 48 ≤ b && b ≤ 57 then b - 48
  else if 97 ≤ b && b ≤ 102 then b - 97 + 10
  else b - 65 + 10

/-- Model of `shouldEscape(c, encodeHost)` (identical for `encodeZone`):
a raw ASCII byte is allowed in a host only if it is alphanumeric, one of
the sub-delims plus `: [ ] < > "`, or an unreserved mark. -/
def shouldEscapeHost (b : Nat) : Bool :=
  !((97 ≤ b && b ≤ 122) || (65 ≤ b && b ≤ 90) || (48 ≤ b && b ≤ 57) ||
    b == 33 || b == 36 || b == 38 || b == 39 || b == 40 || b == 41 || b == 42 ||
    b == 43 || b == 44 || b == 59 || b == 61 || b == 58 || b == 91 || b == 93 ||
    b == 60 || b == 62 || b == 34 ||
    b == 45 || b == 95 || b == 46 || b == 126)

/-- Error behaviour of `net/url.unescape` over host bytes, in
`encodeHost` mode (`asciiEscRestrict = true`) or `encodeZone` mode
(`asciiEscRestrict = false`): a `%` must be followed by two hex digits;
in host mode a `%`-escape of an ASCII byte other than `%25` is an error;
a raw `+` passes; any other raw ASCII byte for which `shouldEscapeHost`
holds is an error.  Bytes ≥ 0x80 pass raw. -/
def hostUnescapeErr (asciiEscRestrict : Bool) : List Nat → Option String
  | [] => none
  | 37 :: rest =>
    match rest with
    | a :: b :: rest2 =>
      if isHexByte a && isHexByte b then
        if asciiEscRestrict && hexValByte a < 8 && !(a == 50 && b == 53) then
          some "invalid URL escape in host"
        else hostUnescapeErr asciiEscRestrict rest2
      else some "invalid URL escape in host"
    | _ => some "invalid URL escape in host"
  | b :: rest =>
    if b == 43 then hostUnescapeErr asciiEscRestrict rest
    else if b < 128 && shouldEscapeHost b then some "invalid character in host name"
    else hostUnescapeErr asciiEscRestrict rest

/-- Split a byte list at the last occurrence of `b`
(`strings.LastIndex` on a one-byte pattern). -/
def cutLastByte (b : Nat) (l : List Nat) : Option (List Nat × List Nat) :=
  match cutLastByteAux b l.reverse with
  | none => none
  | some (postRev, preRev) => some (preRev.reverse, postRev.reverse)
where
  cutLastByteAux (b : Nat) : List Nat → Option (List Nat × List Nat)
    | [] => none
    | x :: xs =>
      if x = b then some ([], xs)
      else match cutLastByteAux b xs with
        | none => none
        | some (pre, post) => some (x :: pre, post)

/-- Split a byte list at the first occurrence of the contiguous pattern
`pat` (`strings.Index`): the second component starts with `pat`. -/
def splitAtSeq (pat : List Nat) : List Nat → Option (List Nat × List Nat)
  | [] => if pat.isPrefixOf ([] : List Nat) then some ([], []) else none
  | x :: xs =>
    if pat.isPrefixOf (x :: xs) then some ([], x :: xs)
    else match splitAtSeq pat xs with
      | none => none
      | some (pre, post) => some (x :: pre, post)

/-- Model of `validOptionalPort` on the bytes after the host proper:
empty, or `:` followed by digits only. -/
def validOptionalPortBytes : List Nat → Bool
  | [] => true
  | 58 :: digits => digits.all (fun b => 48 ≤ b && b ≤ 57)
  | _ => false

/-- Model of `net/url.parseHost`: bracketed hosts need a closing `]`; an
optional `:port` suffix must be all digits; the host bytes then go
through the `unescape(·, encodeHost)` checks (with the RFC 6874 `%25`
zone of a bracketed host checked in `encodeZone` mode).  The validated
host is kept in raw form (Go stores it decoded; decoding only ever
differs on `%`-escapes, which this client never re-encodes). -/
def parseHost (host : String) : Except String String :=
  let hb := strBytes host
  let common : Except String String :=
    match hostUnescapeErr true hb with
    | some e => .error e
    | none => .ok host
  if strStartsWith host "[" then
    match cutLastByte 93 hb with
    | none => .error "missing ']' in host"
    | some (pre, post) =>
      if !validOptionalPortBytes post then .error "invalid port after host"
      else
        match splitAtSeq [37, 50, 53] pre with
        | some (beforeZone, zone) =>
          match hostUnescapeErr true beforeZone with
          | some e => .error e
          | none =>
            match hostUnescapeErr false zone with
            | some e => .error e
            | none =>
              match hostUnescapeErr true (93 :: post) with
              | some e => .error e
              | none => .ok host
        | none => common
  else
    match cutLastByte 58 hb with
    | none => common
    | some (_, post) =>
      if post.all (fun b => 48 ≤ b && b ≤ 57) then common
      else .error "invalid port after host"

/-- Model of `net/url.parseAuthority`: split userinfo at the last `@`,
parse the host, validate the userinfo characters and (as Go's
`unescape(·, encodeUserPassword)` does) its percent escapes.  Returns
`(hasUser, user, host)`. -/
def parseAuthority (authority : String) : Except String (Bool × String × String) :=
  match cutLastChar '@' authority.toList with
  | none =>
    match parseHost authority with
    | .error e => .error e
    | .ok host => .ok (false, "", host)
  | some (userinfo, hostPart) =>
    match parseHost (String.mk hostPart) with
    | .error e => .error e
    | .ok host =>
      if validUserinfo (String.mk userinfo) then
        if validPercents userinfo then .ok (true, String.mk userinfo, host)
        else .error "invalid URL escape in userinfo"
      else .error "net/url: invalid userinfo"

/-- Does the first path segment (text before the first `/`) contain a
colon? -/
def firstSegmentHasColon (rest : String) : Bool :=
  let seg := match cutAtChar '/' rest.toList with
    | some (pre, _) => pre
    | none => rest.toList
  seg.contains ':'

/-- Model of `net/url.parse` with `viaRequest = false` (the fragment has
already been split off); control characters anywhere in this pre-fragment
part are rejected first. -/
def parseNoFrag (rawURL : String) : Except String URL :=
  if containsCTL rawURL then .error "net/url: invalid control character in URL"
  else if rawURL = "*" then .ok { path := "*" }
  else
    match getScheme rawURL with
    | .error e => .error e
    | .ok (scheme0, afterScheme) =>
      let scheme := lowerASCII scheme0
      let (rest, rawQuery, forceQuery) :=
        if strEndsWith afterScheme "?" && (afterScheme.toList.count '?' == 1) then
          (String.mk afterScheme.toList.dropLast, "", true)
        else
          match cutAtChar '?' afterScheme.toList with
          | some (pre, post) => (String.mk pre, String.mk post, false)
          | none => (afterScheme, "", false)
      if !strStartsWith rest "/" && scheme ≠ "" then
        .ok { scheme := scheme, opaquePart := rest, rawQuery := rawQuery, forceQuery := forceQuery }
      else if !strStartsWith rest "/" && firstSegmentHasColon rest then
        .error "first path segment in URL cannot contain colon"
      else if (scheme ≠ "" || !strStartsWith rest "///") && strStartsWith rest "//" then
        let afterSlashes := (rest.drop 2).toList
        let (authority, rest2) :=
          match cutAtChar '/' afterSlashes with
          | some (pre, post) => (String.mk pre, String.mk ('/' :: post))
          | none => (String.mk afterSlashes, "")
        match parseAuthority authority with
        | .error e => .error e
        | .ok (hasUser, user, host) =>
          if validPercents rest2.toList then
            .ok { scheme := scheme, hasUser := hasUser, user := user, host := host,
                  path := rest2, rawQuery := rawQuery, forceQuery := forceQuery }
          else .error "invalid URL escape in path"
      else
        let omitHost := scheme ≠ "" && strStartsWith rest "/"
        if validPercents rest.toList then
          .ok { scheme := scheme, path := rest, omitHost := omitHost,
                rawQuery := rawQuery, forceQuery := forceQuery }
        else .error "invalid URL escape in path"

/-- Model of `net/url.Parse`: split the fragment at the first `#`, parse
the rest (the control-character check happens there, on the pre-fragment
part only, as in Go), then validate the fragment's percent escapes. -/
def urlParse (rawURL : String) : Except String URL :=
  match cutAtChar '#' rawURL.toList with
  | none => parseNoFrag rawURL
  | some (u, frag) =>
    match parseNoFrag (String.mk u) with
    | .error e => .error e
    | .ok url =>
      if validPercents frag then .ok { url with fragment := String.mk frag }
      else .error "invalid URL escape in fragment"

/-- The escaped path of a URL.  In this model paths are stored escaped, so
this is the stored string (models `URL.EscapedPath`). -/
def URL.escapedPath (u : URL) : String := u.path

/-- Split a character list on a separator character (`strings.Split`). -/
def splitOnChar (c : Char) : List Char → List (List Char)
  | [] => [[]]
  | x :: xs =>
    let r := splitOnChar c xs
    if x = c then [] :: r
    else match r with
      | [] => [[x]]
      | h :: t => (x :: h) :: t

/-- Segment-stack processing of `path.Clean`: drop empty and `.` segments,
let `..` cancel a preceding segment (or accumulate at the start of a
relative path, or vanish at the root of a rooted one). -/
def cleanSegs (rooted : Bool) : List String → List String → List String
  | stack, [] => stack.reverse
  | stack, s :: rest =>
    if s = "" || s = "." then cleanSegs rooted stack rest
    else if s = ".." then
      match stack with
      | t :: ts =>
        if t = ".." then cleanSegs rooted (s :: t :: ts) rest else cleanSegs rooted ts rest
      | [] => if rooted then cleanSegs rooted [] rest else cleanSegs rooted [".."] rest
    else cleanSegs rooted (s :: stack) rest

/-- Model of Go `path.Clean` by segment processing: same rooted-ness, one
slash between segments, `.`/`..` eliminated, `.` for an empty result. -/
def pathClean (p : String) : String :=
  if p = "" then "."
  else
    let rooted := strStartsWith p "/"
    let segs := (splitOnChar '/' p.toList).map String.mk
    let out := goJoin "/" (cleanSegs rooted [] segs)
    if rooted then "/" ++ out
    else if out = "" then "." else out

/-- Model of Go `path.Join`: empty input gives `""`; otherwise elements are
buffered (a `/` precedes every element once the buffer is non-empty) and
the result is `Clean`ed. -/
def pathJoinGo (elem : List String) : String :=
  if elem.all (fun e => e = "") then ""
  else pathClean (elem.foldl
    (fun buf e => if buf ≠ "" then buf ++ "/" ++ e else if e ≠ "" then e else buf) "")

/-- Model of `URL.JoinPath`: join the escaped base path with the new
elements; a relative base stays relative (join rooted, then strip the
leading slash); a trailing slash on the last element is preserved. -/
def URL.joinPath (u : URL) (elem : List String) : URL :=
  let rootedBase := strStartsWith u.escapedPath "/"
  let all := (if rootedBase then u.escapedPath else "/" ++ u.escapedPath) :: elem
  let p :=
    if rootedBase then pathJoinGo all
    else String.mk (pathJoinGo all).toList.tail
  let lastElem := all.getLastD ""
  let p := if strEndsWith lastElem "/" && !strEndsWith p "/" then p ++ "/" else p
  { u with path := p }

/-- Model of `URL.String` for the fields of this model: `scheme:`, then
either the `URL`'s rootless part or `//[userinfo@]host` and the
path (a relative path gets a `/` before it when there is a host, and a
`./` guard when the whole prefix is empty and its first segment has a
colon), then `?query` and `#fragment`. -/
def URL.render (u : URL) : String :=
  let buf := if u.scheme ≠ "" then u.scheme ++ ":" else ""
  let buf :=
    if u.opaquePart ≠ "" then buf ++ u.opaquePart
    else
      let buf :=
        if u.scheme ≠ "" || u.host ≠ "" || u.hasUser then
          (if u.omitHost && u.host = "" && !u.hasUser then buf
           else
             let buf := if u.host ≠ "" || u.path ≠ "" || u.hasUser then buf ++ "//" else buf
             let buf := if u.hasUser then buf ++ u.user ++ "@" else buf
             if u.host ≠ "" then buf ++ u.host else buf)
        else buf
      let p := u.escapedPath
      let buf := if p ≠ "" && !strStartsWith p "/" && u.host ≠ "" then buf ++ "/" else buf
      let buf := if buf = "" && firstSegmentHasColon p then buf ++ "./" else buf
      buf ++ p
  let buf := if u.forceQuery || u.rawQuery ≠ "" then buf ++ "?" ++ u.rawQuery else buf
  if u.fragment ≠ "" then buf ++ "#" ++ u.fragment else buf

end Champollion

namespace Champollion

/-- Model of `pkg/env.GetVar`: the process environment is modelled as a map
from names to optional values (`os.LookupEnv`); return the stored value when the
variable is set (even to `""`), otherwise the fallback. -/
def GetVar (env : String → Option String) (key fallback : String) : String :=
  match env key with
  | some value => value
  | none => fallback

end Champollion

namespace Champollion

/-! ## JSON model

`Search` calls `json.Unmarshal(body, &searchResp)`.  We model a JSON
syntax tree, a parser (fuel-based recursive descent over the body's
characters), and the `encoding/json` decoding rules for the
`SearchResponse` shape: unknown object keys are ignored, keys match field
tags case-insensitively (ASCII fold; all tags are ASCII), `null` leaves
the target unchanged, absent fields keep their zero values, and a present
field whose JSON type does not match the Go type is an error.  Go records
such an error and keeps decoding; since `Search` discards the response
whenever the error is non-nil, short-circuiting at the first error is
observationally the same. -/

inductive Json where
  | null
  | bool (b : Bool)
  | num (raw : String)
  | str (s : String)
  | arr (items : List Json)
  | obj (fields : List (String × Json))
deriving Repr

/-- JSON whitespace skipping (space, tab, newline, carriage return). -/
def skipWs : List Char → List Char
  | [] => []
  | c :: rest =>
    if c = ' ' || c = '\t' || c = '\n' || c = '\r' then skipWs rest else c :: rest

/-- Expect the literal characters `lit` and yield `j`. -/
def expectLit (lit : List Char) (j : Json) (l : List Char) : Except String (Json × List Char) :=
  if lit.isPrefixOf l then .ok (j, l.drop lit.length)
  else .error "invalid character in literal"

def hexVal (c : Char) : Nat :=
  if c.isDigit then c.toNat - 48
  else if decide ('a' ≤ c) && decide (c ≤ 'f') then c.toNat - 87
  else c.toNat - 55

/-- Four hex digits of a `\\u` escape. -/
def parseHex4 : List Char → Option (Nat × List Char)
  | a :: b :: c :: d :: rest =>
    if isHexChar a && isHexChar b && isHexChar c && isHexChar d then
      some (((hexVal a * 16 + hexVal b) * 16 + hexVal c) * 16 + hexVal d, rest)
    else none
  | _ => none

/-- String-literal body after the opening quote: plain characters up to
the closing quote, the standard escapes, `\\uXXXX` with surrogate-pair
combination (a lone surrogate becomes U+FFFD, as in Go), and unescaped
control characters rejected. -/
def parseStrChars (fuel : Nat) (l : List Char) : Except String (List Char × List Char) :=
  match fuel with
  | 0 => .error "string literal too long"
  | fuel + 1 =>
    match l with
    | [] => .error "unexpected end of JSON input"
    | '"' :: rest => .ok ([], rest)
    | '\\' :: esc =>
      match esc with
      | [] => .error "unexpected end of JSON input"
      | e :: rest =>
        if e = '"' then (parseStrChars fuel rest).map (fun p => ('"' :: p.1, p.2))
        else if e = '\\' then (parseStrChars fuel rest).map (fun p => ('\\' :: p.1, p.2))
        else if e = '/' then (parseStrChars fuel rest).map (fun p => ('/' :: p.1, p.2))
        else if e = 'b' then (parseStrChars fuel rest).map (fun p => ('\x08' :: p.1, p.2))
        else if e = 'f' then (parseStrChars fuel rest).map (fun p => ('\x0c' :: p.1, p.2))
        else if e = 'n' then (parseStrChars fuel rest).map (fun p => ('\n' :: p.1, p.2))
        else if e = 'r' then (parseStrChars fuel rest).map (fun p => ('\r' :: p.1, p.2))
        else if e = 't' then (parseStrChars fuel rest).map (fun p => ('\t' :: p.1, p.2))
        else if e = 'u' then
          match parseHex4 rest with
          | none => .error "invalid character in string escape code"
          | some (n, rest2) =>
            if 0xD800 ≤ n && n < 0xDC00 then
              match rest2 with
              | '\\' :: 'u' :: rest3 =>
                match parseHex4 rest3 with
                | some (m, rest4) =>
                  if 0xDC00 ≤ m && m < 0xE000 then
                    (parseStrChars fuel rest4).map (fun p =>
                      (Char.ofNat (0x10000 + (n - 0xD800) * 0x400 + (m - 0xDC00)) :: p.1, p.2))
                  else (parseStrChars fuel rest2).map (fun p => ('�' :: p.1, p.2))
                | none => (parseStrChars fuel rest2).map (fun p => ('�' :: p.1, p.2))
              | _ => (parseStrChars fuel rest2).map (fun p => ('�' :: p.1, p.2))
            else if 0xDC00 ≤ n && n < 0xE000 then
              (parseStrChars fuel rest2).map (fun p => ('�' :: p.1, p.2))
            else (parseStrChars fuel rest2).map (fun p => (Char.ofNat n :: p.1, p.2))
        else .error "invalid character in string escape code"
    | c :: rest =>
      if c.toNat < 0x20 then .error "invalid character in string literal"
      else (parseStrChars fuel rest).map (fun p => (c :: p.1, p.2))

/-- Number token per the JSON grammar; the raw text is kept, as
`encoding/json` only converts it at a numeric target type (this struct
has none, so a number can only be a type mismatch). -/
def parseNum (l : List Char) : Except String (Json × List Char) :=
  let (neg, l1) := match l with
    | '-' :: rest => (['-'], rest)
    | _ => ([], l)
  match l1 with
  | [] => .error "unexpected end of JSON input"
  | c :: _ =>
    if !c.isDigit then .error "invalid character in numeric literal"
    else
      let intPart := if c = '0' then ['0'] else l1.takeWhile Char.isDigit
      let afterInt := l1.drop intPart.length
      let (fracPart, afterFrac) :=
        match afterInt with
        | '.' :: d :: rest =>
          if d.isDigit then
            let ds := (d :: rest).takeWhile Char.isDigit
            ('.' :: ds, (d :: rest).drop ds.length)
          else ([], afterInt)
        | _ => ([], afterInt)
      if fracPart = [] && (afterInt.head? = some '.') then
        .error "invalid character in numeric literal"
      else
        let (expPart, afterExp) :=
          match afterFrac with
          | e :: rest =>
            if e = 'e' || e = 'E' then
              let (sign, rest2) := match rest with
                | '+' :: r => (['+'], r)
                | '-' :: r => (['-'], r)
                | r => ([], r)
              let ds := rest2.takeWhile Char.isDigit
              if ds = [] then ([], none)
              else (e :: (sign ++ ds), some (rest2.drop ds.length))
            else ([], some afterFrac)
          | [] => ([], some afterFrac)
        match afterExp with
        | none => .error "invalid character in exponent of numeric literal"
        | some rest =>
          .ok (.num (String.mk (neg ++ intPart ++ fracPart ++ expPart)), rest)

mutual

/-- Recursive-descent JSON value parser (fuel strictly exceeds the input
length, so exhaustion never fires on inputs the claims touch). -/
def parseValue (fuel : Nat) (l : List Char) : Except String (Json × List Char) :=
  match fuel with
  | 0 => .error "value nesting too deep"
  | fuel + 1 =>
    match skipWs l with
    | [] => .error "unexpected end of JSON input"
    | c :: rest =>
      if c = 'n' then expectLit ['u', 'l', 'l'] .null rest
      else if c = 't' then expectLit ['r', 'u', 'e'] (.bool true) rest
      else if c = 'f' then expectLit ['a', 'l', 's', 'e'] (.bool false) rest
      else if c = '"' then
        match parseStrChars (rest.length + 1) rest with
        | .error e => .error e
        | .ok (chars, r) => .ok (.str (String.mk chars), r)
      else if c = '[' then
        match skipWs rest with
        | ']' :: r => .ok (.arr [], r)
        | r => parseArrayItems fuel r []
      else if c = '{' then
        match skipWs rest with
        | '}' :: r => .ok (.obj [], r)
        | r => parseObjItems fuel r []
      else if c = '-' || c.isDigit then parseNum (c :: rest)
      else .error "invalid character looking for beginning of value"

/-- Comma-separated array items up to `]`. -/
def parseArrayItems (fuel : Nat) (l : List Char) (acc : List Json) :
    Except String (Json × List Char) :=
  match fuel with
  | 0 => .error "value nesting too deep"
  | fuel + 1 =>
    match parseValue fuel l with
    | .error e => .error e
    | .ok (v, rest) =>
      match skipWs rest with
      | ',' :: r => parseArrayItems fuel r (acc ++ [v])
      | ']' :: r => .ok (.arr (acc ++ [v]), r)
      | _ => .error "invalid character after array element"

/-- Comma-separated `"key": value` members up to `}`. -/
def parseObjItems (fuel : Nat) (l : List Char) (acc : List (String × Json)) :
    Except String (Json × List Char) :=
  match fuel with
  | 0 => .error "value nesting too deep"
  | fuel + 1 =>
    match skipWs l with
    | '"' :: rest =>
      match parseStrChars (rest.length + 1) rest with
      | .error e => .error e
      | .ok (keyChars, afterKey) =>
        match skipWs afterKey with
        | ':' :: afterColon =>
          match parseValue fuel afterColon with
          | .error e => .error e
          | .ok (v, rest2) =>
            match skipWs rest2 with
            | ',' :: r => parseObjItems fuel r (acc ++ [(String.mk keyChars, v)])
            | '}' :: r => .ok (.obj (acc ++ [(String.mk keyChars, v)]), r)
            | _ => .error "invalid character after object key:value pair"
        | _ => .error "invalid character after object key"
    | _ => .error "invalid character looking for beginning of object key string"

end

/-- Parse a whole body: one JSON value, nothing but whitespace after it
(`json.Unmarshal` rejects trailing data). -/
def parseJson (s : String) : Except String Json :=
  match parseValue (2 * s.toList.length + 8) s.toList with
  | .error e => .error e
  | .ok (j, rest) =>
    if skipWs rest = [] then .ok j else .error "invalid character after top-level value"

end Champollion

namespace Champollion

/-- Structure `SearchResult` from `part_001`; every field is a Go `string`, zero
value `""`. -/
structure SearchResult where
  title : String := ""
  url : String := ""
  imgSrc : String := ""
  thumbnailSrc : String := ""
  thumbnail : String := ""
  content : String := ""
  author : String := ""
  iframeSrc : String := ""
deriving Repr, DecidableEq

/-- Structure `SearchResponse` from `part_001`.  `results` models the
`[]*SearchResult` slice: a `none` entry is a nil pointer (a JSON `null`
element); the nil and empty slices are both `[]`. -/
structure SearchResponse where
  results : List (Option SearchResult) := []
  suggestions : List String := []
deriving Repr, DecidableEq

/-- ASCII case folding, modelling `encoding/json`'s case-insensitive
field-name match (all field tags here are ASCII). -/
def asciiFold (s : String) : String :=
  String.mk (s.toList.map Char.toLower)

/-- Decode a JSON value into a Go `string` field whose current value is
`cur`: a string replaces it, `null` leaves it unchanged, anything else is
a type error. -/
def decodeString (j : Json) (cur : String) : Except String String :=
  match j with
  | .str s => .ok s
  | .null => .ok cur
  | _ => .error "json: cannot unmarshal value into Go value of type string"

/-- Assign one JSON object member to the `SearchResult` field whose tag
matches the key (unknown keys are ignored). -/
def setResultField (r : SearchResult) (key : String) (j : Json) : Except String SearchResult :=
  let k := asciiFold key
  if k = "title" then (decodeString j r.title).map (fun v => { r with title := v })
  else if k = "url" then (decodeString j r.url).map (fun v => { r with url := v })
  else if k = "img_src" then (decodeString j r.imgSrc).map (fun v => { r with imgSrc := v })
  else if k = "thumbnail_src" then
    (decodeString j r.thumbnailSrc).map (fun v => { r with thumbnailSrc := v })
  else if k = "thumbnail" then
    (decodeString j r.thumbnail).map (fun v => { r with thumbnail := v })
  else if k = "content" then (decodeString j r.content).map (fun v => { r with content := v })
  else if k = "author" then (decodeString j r.author).map (fun v => { r with author := v })
  else if k = "iframe_src" then
    (decodeString j r.iframeSrc).map (fun v => { r with iframeSrc := v })
  else .ok r

/-- Decode one element of the `[]*SearchResult` slice: `null` is a nil
pointer, an object fills a fresh `SearchResult`. -/
def decodeResultPtr (j : Json) : Except String (Option SearchResult) :=
  match j with
  | .null => .ok none
  | .obj fields =>
    (fields.foldlM (fun r p => setResultField r p.1 p.2) {}).map some
  | _ => .error "json: cannot unmarshal value into Go value of type searxng.SearchResult"

/-- Element-wise decoding of a `results` array, in order (the decoder's
array loop). -/
def decodeResultList : List Json → Except String (List (Option SearchResult))
  | [] => .ok []
  | j :: rest =>
    match decodeResultPtr j with
    | .error e => .error e
    | .ok r =>
      match decodeResultList rest with
      | .error e => .error e
      | .ok rs => .ok (r :: rs)

/-- Decode the `results` value: `null` leaves the nil slice, an array
decodes element-wise in order. -/
def decodeResults (j : Json) : Except String (List (Option SearchResult)) :=
  match j with
  | .null => .ok []
  | .arr items => decodeResultList items
  | _ => .error "json: cannot unmarshal value into Go value of type []*searxng.SearchResult"

/-- Element-wise decoding of a `suggestions` array, in order. -/
def decodeStringList : List Json → Except String (List String)
  | [] => .ok []
  | j :: rest =>
    match decodeString j "" with
    | .error e => .error e
    | .ok s =>
      match decodeStringList rest with
      | .error e => .error e
      | .ok ss => .ok (s :: ss)

/-- Decode the `suggestions` value: `null` leaves the nil slice, an array
of strings decodes element-wise (`null` elements keep the zero `""`). -/
def decodeSuggestions (j : Json) : Except String (List String) :=
  match j with
  | .null => .ok []
  | .arr items => decodeStringList items
  | _ => .error "json: cannot unmarshal value into Go value of type []string"

/-- Assign one top-level object member to the matching `SearchResponse`
field. -/
def setResponseField (r : SearchResponse) (key : String) (j : Json) :
    Except String SearchResponse :=
  let k := asciiFold key
  if k = "results" then (decodeResults j).map (fun v => { r with results := v })
  else if k = "suggestions" then (decodeSuggestions j).map (fun v => { r with suggestions := v })
  else .ok r

/-- Decode a parsed JSON value into `SearchResponse`: `null` leaves the
zero value, an object is decoded member by member, anything else is a
type error. -/
def decodeSearchResponse (j : Json) : Except String SearchResponse :=
  match j with
  | .null => .ok {}
  | .obj fields => fields.foldlM (fun r p => setResponseField r p.1 p.2) {}
  | _ => .error "json: cannot unmarshal value into Go value of type searxng.SearchResponse"

/-- Model of `json.Unmarshal(body, &searchResp)` for this shape. -/
def unmarshalSearchResponse (body : String) : Except String SearchResponse :=
  match parseJson body with
  | .error e => .error e
  | .ok j => decodeSearchResponse j

end Champollion

namespace Champollion

/-! ## The Search client -/

/-- Structure `Client` from `part_001`: holds the base URL string. -/
structure Client where
  baseURL : String
deriving Repr, DecidableEq

/-- Constructor `NewClient`. -/
def NewClient (baseURL : String) : Client := { baseURL := baseURL }

/-- The error returned by `Search`, tagged by the return site that
produced it (the Go code returns a wrapped or raw `error`). -/
inductive SearchError where
  | invalidBaseURL (msg : String)
  | newRequest (msg : String)
  | transport (msg : String)
  | bodyRead (msg : String)
  | jsonDecode (msg : String)
deriving Repr, DecidableEq

/-- The pair `(*SearchResponse, error)` that `Search` returns; `none`
models a nil pointer / nil error. -/
structure SearchReturn where
  resp : Option SearchResponse
  err : Option SearchError
deriving Repr, DecidableEq

/-- The effectful outcome of `http.DefaultClient.Do` plus `io.ReadAll`:
either a transport failure, or a response with a status code and a body
read that yields the full body or fails. -/
inductive DoOutcome where
  | failure (msg : String)
  | response (statusCode : Nat) (bodyRead : Except String String)
deriving Repr

/-- Request construction of `Search` (lines 60-95 of `part_001`): parse
the base URL, build the parameters, join the `search` path segment,
attach the encoded query, print the URL. -/
def requestURL (c : Client) (query : String) (opts : Option SearchOptions) :
    Except String String :=
  match urlParse c.baseURL with
  | .error e => .error e
  | .ok baseU =>
    let params := buildParams query opts
    let searchURL := baseU.joinPath ["search"]
    let searchURL := { searchURL with rawQuery := params.encode }
    .ok searchURL.render

/-- Model of `Client.Search` (lines 59-118 of `part_001`).  The first
component of the result is the URL of the request that was sent, `none`
when no request went out.  The HTTP outcome is a parameter: `Search` is a
pure function of it, and the definition consumes only the body of a
response, never its status code. -/
def Client.search (c : Client) (query : String) (opts : Option SearchOptions)
    (world : DoOutcome) : Option String × SearchReturn :=
  match requestURL c query opts with
  | .error e => (none, { resp := none, err := some (.invalidBaseURL e) })
  | .ok urlStr =>
    match urlParse urlStr with
    | .error e => (none, { resp := none, err := some (.newRequest e) })
    | .ok _ =>
      match world with
      | .failure m => (some urlStr, { resp := none, err := some (.transport m) })
      | .response _ (.error m) => (some urlStr, { resp := none, err := some (.bodyRead m) })
      | .response _ (.ok body) =>
        match unmarshalSearchResponse body with
        | .error m => (some urlStr, { resp := none, err := some (.jsonDecode m) })
        | .ok r => (some urlStr, { resp := some r, err := none })

end Champollion

namespace Champollion

/-- Is a key list in strictly ascending byte-wise order? -/
def keysAscending : List String → Bool
  | [] => true
  | [_] => true
  | x :: y :: rest => goStrLt x y && keysAscending (y :: rest)

/-- Index of the first occurrence of a key. -/
def idxOfKey (k : String) : List String → Nat
  | [] => 0
  | x :: rest => if x = k then 0 else idxOfKey k rest + 1

end Champollion

namespace Champollion

/-! ## Helper lemmas -/

/-- The sorted parameter list for a `nil`-options call. -/
lemma sortedParams_none (q : String) :
    sortPairs (buildParams q none) = [("format", "json"), ("q", q)] := by rfl

/-- The sorted parameter list for a call with options: each optional
parameter appears exactly under its guard, in key order. -/
lemma sortedParams_some (q : String) (o : SearchOptions) :
    sortPairs (buildParams q (some o)) =
      (if o.categories.length > 0 then [("categories", goJoin "," o.categories)] else []) ++
      (if o.engines.length > 0 then [("engines", goJoin "," o.engines)] else []) ++
      [("format", "json")] ++
      (if o.language != "" then [("language", o.language)] else []) ++
      (if o.pageNo > 0 then [("pageno", toString o.pageNo)] else []) ++
      [("q", q)] := by
  simp only [buildParams]
  split_ifs <;> rfl

/-- A successful element-wise decode of `results` has the same length as
the array and decodes the `i`-th element to the `i`-th result. -/
lemma decodeResultList_spec : ∀ {items : List Json} {l : List (Option SearchResult)},
    decodeResultList items = .ok l →
    l.length = items.length ∧
      ∀ i (h1 : i < items.length) (h2 : i < l.length),
        decodeResultPtr items[i] = .ok l[i] := by
  intro items
  induction items with
  | nil =>
    intro l h
    simp only [decodeResultList] at h
    cases h
    exact ⟨rfl, fun i h1 _ => absurd h1 (by simp)⟩
  | cons j rest ih =>
    intro l h
    simp only [decodeResultList] at h
    cases hj : decodeResultPtr j with
    | error e => rw [hj] at h; cases h
    | ok r =>
      rw [hj] at h
      cases hr : decodeResultList rest with
      | error e => rw [hr] at h; cases h
      | ok rs =>
        rw [hr] at h
        cases h
        obtain ⟨hlen, hnth⟩ := ih hr
        refine ⟨by simp [hlen], ?_⟩
        intro i h1 h2
        cases i with
        | zero => simpa using hj
        | succ n =>
          have h1' : n < rest.length := by simpa using h1
          have h2' : n < rs.length := by simpa using h2
          simpa using hnth n h1' h2'

/-- Same, for the `suggestions` array. -/
lemma decodeStringList_spec : ∀ {items : List Json} {l : List String},
    decodeStringList items = .ok l →
    l.length = items.length ∧
      ∀ i (h1 : i < items.length) (h2 : i < l.length),
        decodeString items[i] "" = .ok l[i] := by
  intro items
  induction items with
  | nil =>
    intro l h
    simp only [decodeStringList] at h
    cases h
    exact ⟨rfl, fun i h1 _ => absurd h1 (by simp)⟩
  | cons j rest ih =>
    intro l h
    simp only [decodeStringList] at h
    cases hj : decodeString j "" with
    | error e => rw [hj] at h; cases h
    | ok r =>
      rw [hj] at h
      cases hr : decodeStringList rest with
      | error e => rw [hr] at h; cases h
      | ok rs =>
        rw [hr] at h
        cases h
        obtain ⟨hlen, hnth⟩ := ih hr
        refine ⟨by simp [hlen], ?_⟩
        intro i h1 h2
        cases i with
        | zero => simpa using hj
        | succ n =>
          have h1' : n < rest.length := by simpa using h1
          have h2' : n < rs.length := by simpa using h2
          simpa using hnth n h1' h2'

/-! ## Claim theorems -/

/-- C1: the parameter set built by `Search` always contains `format=json`
and `q=<query>`; with options present, `categories`/`engines` appear
(comma-joined, order preserved) iff non-empty, `language` iff non-empty,
`pageno` (decimal) iff the page number is positive; each is entirely
absent otherwise, and absent for nil options. -/
theorem searchParams_spec (query : String) (opts : Option SearchOptions) :
    (buildParams query opts).get "format" = some "json" ∧
    (buildParams query opts).get "q" = some query ∧
    (∀ o, opts = some o →
      ((buildParams query opts).get "categories" =
        if o.categories.length > 0 then some (goJoin "," o.categories) else none) ∧
      ((buildParams query opts).get "engines" =
        if o.engines.length > 0 then some (goJoin "," o.engines) else none) ∧
      ((buildParams query opts).get "language" =
        if o.language != "" then some o.language else none) ∧
      ((buildParams query opts).get "pageno" =
        if o.pageNo > 0 then some (toString o.pageNo) else none)) ∧
    (opts = none →
      (buildParams query opts).get "categories" = none ∧
      (buildParams query opts).get "engines" = none ∧
      (buildParams query opts).get "language" = none ∧
      (buildParams query opts).get "pageno" = none) := by
  cases opts with
  | none =>
    refine ⟨rfl, rfl, ?_, fun _ => ⟨rfl, rfl, rfl, rfl⟩⟩
    intro o h
    cases h
  | some o =>
    refine ⟨?_, ?_, ?_, ?_⟩
    · simp only [buildParams, Values.get, Values.set]; split_ifs <;> rfl
    · simp only [buildParams, Values.get, Values.set]; split_ifs <;> rfl
    · intro o' h
      cases h
      refine ⟨?_, ?_, ?_, ?_⟩ <;>
        (simp only [buildParams, Values.get, Values.set]; split_ifs <;> rfl)
    · intro h; cases h

/-- C1 witness: page number 3 yields `pageno=3`; page number 0 yields no
`pageno` parameter. -/
theorem searchParams_spec_witness :
    (buildParams "golang" (some ⟨["a"], [], "", 3⟩)).get "pageno" = some "3" ∧
    (buildParams "golang" (some ⟨["a"], [], "", 0⟩)).get "pageno" = none ∧
    (buildParams "golang" (some ⟨["a"], [], "", -1⟩)).get "pageno" = none := by
  refine ⟨?_, ?_, ?_⟩
  · have h := ((searchParams_spec "golang" (some ⟨["a"], [], "", 3⟩)).2.2.1 _ rfl).2.2.2
    simpa using h
  · have h := ((searchParams_spec "golang" (some ⟨["a"], [], "", 0⟩)).2.2.1 _ rfl).2.2.2
    simpa using h
  · have h := ((searchParams_spec "golang" (some ⟨["a"], [], "", -1⟩)).2.2.1 _ rfl).2.2.2
    simpa using h

/-- C2: the HTTP status code is never inspected: for a fixed body-read
outcome the whole result of `Search` is the same at every status code,
and once a request has gone out the only errors a response can produce
are a body-read failure or a JSON-decode failure. -/
theorem search_ignores_status (c : Client) (q : String) (o : Option SearchOptions) :
    (∀ s1 s2 bodyRead,
      c.search q o (.response s1 bodyRead) = c.search q o (.response s2 bodyRead)) ∧
    (∀ s bodyRead er,
      (c.search q o (.response s bodyRead)).1.isSome = true →
      (c.search q o (.response s bodyRead)).2.err = some er →
      (∃ m, er = .bodyRead m) ∨ (∃ m, er = .jsonDecode m)) := by
  constructor
  · intro s1 s2 bodyRead
    cases hru : requestURL c q o with
    | error e => simp [Client.search, hru]
    | ok u =>
      cases hup : urlParse u with
      | error e => simp [Client.search, hru, hup]
      | ok u2 =>
        cases bodyRead with
        | error m => simp [Client.search, hru, hup]
        | ok b =>
          cases hum : unmarshalSearchResponse b with
          | error m => simp [Client.search, hru, hup, hum]
          | ok r => simp [Client.search, hru, hup, hum]
  · intro s bodyRead er hsent herr
    cases hru : requestURL c q o with
    | error e => simp [Client.search, hru] at hsent
    | ok u =>
      cases hup : urlParse u with
      | error e => simp [Client.search, hru, hup] at hsent
      | ok u2 =>
        cases bodyRead with
        | error m =>
          simp [Client.search, hru, hup] at herr
          exact Or.inl ⟨m, herr.symm⟩
        | ok b =>
          cases hum : unmarshalSearchResponse b with
          | error m =>
            simp [Client.search, hru, hup, hum] at herr
            exact Or.inr ⟨m, herr.symm⟩
          | ok r => simp [Client.search, hru, hup, hum] at herr

/-- C2 witness: at base `http://localhost:8080` with body `not json`, the
request went out and the resulting error is a decode error. -/
theorem search_ignores_status_witness :
    (∃ m, SearchError.jsonDecode "invalid character in literal" = SearchError.bodyRead m) ∨
    (∃ m, SearchError.jsonDecode "invalid character in literal" = SearchError.jsonDecode m) :=
  (search_ignores_status (NewClient "http://localhost:8080") "golang" none).2
    200 (.ok "not json") (SearchError.jsonDecode "invalid character in literal") rfl rfl

/-- C4: whenever `Search` returns an error — from URL parsing, transport,
body read or JSON decode — the response pointer is nil. -/
theorem search_error_nil_response (c : Client) (q : String) (o : Option SearchOptions)
    (world : DoOutcome) (e : SearchError)
    (h : (c.search q o world).2.err = some e) :
    (c.search q o world).2.resp = none := by
  cases hru : requestURL c q o with
  | error e1 => simp [Client.search, hru]
  | ok u =>
    cases hup : urlParse u with
    | error e2 => simp [Client.search, hru, hup]
    | ok u2 =>
      cases world with
      | failure m => simp [Client.search, hru, hup]
      | response s bodyRead =>
        cases bodyRead with
        | error m => simp [Client.search, hru, hup]
        | ok b =>
          cases hum : unmarshalSearchResponse b with
          | error m => simp [Client.search, hru, hup, hum]
          | ok r => simp [Client.search, hru, hup, hum] at h

/-- C4 witness: the non-JSON body `not json` yields a decode error and a
nil response. -/
theorem search_error_nil_response_witness :
    ((NewClient "http://localhost:8080").search "golang" none
        (.response 200 (.ok "not json"))).2.resp = none :=
  search_error_nil_response _ _ _ _
    (SearchError.jsonDecode "invalid character in literal") rfl

/-- C5: base URL `http://localhost:8080`, query `golang`, nil options:
the constructed request URL is exactly
`http://localhost:8080/search?format=json&q=golang`, and that is the URL
the request is sent to. -/
theorem search_request_url_localhost :
    requestURL (NewClient "http://localhost:8080") "golang" none =
      .ok "http://localhost:8080/search?format=json&q=golang" ∧
    ((NewClient "http://localhost:8080").search "golang" none
        (.response 200 (.ok "\x7b\x7d"))).1 =
      some "http://localhost:8080/search?format=json&q=golang" := ⟨rfl, rfl⟩

/-- C6: with categories `["a","b"]` the encoded query string starts with
`categories=a%2Cb&` (comma percent-encoded); with empty categories, or
with nil options, no `categories` parameter is present at all. -/
theorem categories_param (query : String) (o : SearchOptions) :
    (o.categories = ["a", "b"] →
      ∃ rest, (buildParams query (some o)).encode = "categories=a%2Cb&" ++ rest) ∧
    (o.categories = [] → (buildParams query (some o)).get "categories" = none) ∧
    (buildParams query none).get "categories" = none := by
  refine ⟨?_, ?_, rfl⟩
  · intro h
    simp only [Values.encode]
    rw [sortedParams_some, h]
    split_ifs <;> first | exact ⟨_, rfl⟩ | simp_all
  · intro h
    obtain ⟨cats, engs, lang, page⟩ := o
    simp only at h
    subst h
    simp only [buildParams, Values.get, Values.set]
    split_ifs <;> first | rfl | simp_all

/-- C6 witness: concrete instance with categories `["a","b"]`. -/
theorem categories_param_witness :
    ∃ rest, (buildParams "x" (some ⟨["a", "b"], [], "", 0⟩)).encode =
      "categories=a%2Cb&" ++ rest :=
  (categories_param "x" ⟨["a", "b"], [], "", 0⟩).1 rfl

/-- C9: the encoded parameters appear in strictly ascending byte-wise key
order (categories, engines, format, language, pageno, q), whatever the
query and options; in particular `format=json` precedes `q=<query>`. -/
theorem encoded_params_sorted (query : String) (opts : Option SearchOptions) :
    (keysAscending ((sortPairs (buildParams query opts)).map Prod.fst) &&
     ((sortPairs (buildParams query opts)).map Prod.fst).contains "format" &&
     ((sortPairs (buildParams query opts)).map Prod.fst).contains "q" &&
     Nat.blt (idxOfKey "format" ((sortPairs (buildParams query opts)).map Prod.fst))
       (idxOfKey "q" ((sortPairs (buildParams query opts)).map Prod.fst))) = true := by
  cases opts with
  | none => rw [sortedParams_none]; rfl
  | some o => rw [sortedParams_some]; split_ifs <;> rfl

/-- C7: a successful `Search` returns a non-nil response; the decoded
`results` and `suggestions` sequences are exactly the element-wise, in
order decodings of the JSON arrays (no filtering, deduplication or
re-ranking); and the example body yields one result (`Go`,
`https://go.dev`) with suggestions `["golang tutorial"]`. -/
theorem search_success_order (c : Client) (q : String) (o : Option SearchOptions)
    (world : DoOutcome) :
    ((c.search q o world).2.err = none → ∃ r, (c.search q o world).2.resp = some r) ∧
    (∀ items l, decodeResultList items = .ok l →
      l.length = items.length ∧ ∀ i (h1 : i < items.length) (h2 : i < l.length),
        decodeResultPtr items[i] = .ok l[i]) ∧
    (∀ items l, decodeStringList items = .ok l →
      l.length = items.length ∧ ∀ i (h1 : i < items.length) (h2 : i < l.length),
        decodeString items[i] "" = .ok l[i]) ∧
    ((NewClient "http://localhost:8080").search "golang" none (.response 200 (.ok
        "\x7b\"results\":[\x7b\"title\":\"Go\",\"url\":\"https://go.dev\"\x7d],\"suggestions\":[\"golang tutorial\"]\x7d"))).2 =
      { resp := some { results := [some { title := "Go", url := "https://go.dev" }],
                       suggestions := ["golang tutorial"] },
        err := none } := by
  refine ⟨?_, fun _ _ h => decodeResultList_spec h, fun _ _ h => decodeStringList_spec h, rfl⟩
  intro herr
  cases hru : requestURL c q o with
  | error e1 => simp [Client.search, hru] at herr
  | ok u =>
    cases hup : urlParse u with
    | error e2 => simp [Client.search, hru, hup] at herr
    | ok u2 =>
      cases world with
      | failure m => simp [Client.search, hru, hup] at herr
      | response s bodyRead =>
        cases bodyRead with
        | error m => simp [Client.search, hru, hup] at herr
        | ok b =>
          cases hum : unmarshalSearchResponse b with
          | error m => simp [Client.search, hru, hup, hum] at herr
          | ok r => exact ⟨r, by simp [Client.search, hru, hup, hum]⟩

/-- C7 witness: the example body produces a non-nil response. -/
theorem search_success_order_witness :
    ∃ r, (((NewClient "http://localhost:8080").search "golang" none
        (.response 200 (.ok "\x7b\x7d"))).2).resp = some r :=
  (search_success_order (NewClient "http://localhost:8080") "golang" none
    (.response 200 (.ok "\x7b\x7d"))).1 rfl

/-- C8: `GetVar` returns the environment's value whenever the variable is
set — also when set to the empty string — and the fallback when unset;
it is a total function, so it cannot fail. -/
theorem getVar_spec (env : String → Option String) (key fallback : String) :
    (∀ v, env key = some v → GetVar env key fallback = v) ∧
    (env key = none → GetVar env key fallback = fallback) := by
  constructor
  · intro v h; simp [GetVar, h]
  · intro h; simp [GetVar, h]

/-- C8 witness: a variable set to the empty string resolves to `""`; an
unset variable resolves to the fallback. -/
theorem getVar_spec_witness :
    GetVar (fun k => if k = "SEARXNG_URL" then some "" else none)
      "SEARXNG_URL" "http://localhost:8080" = "" ∧
    GetVar (fun k => if k = "SEARXNG_URL" then some "" else none)
      "OTHER" "fallback" = "fallback" :=
  ⟨(getVar_spec (fun k => if k = "SEARXNG_URL" then some "" else none)
      "SEARXNG_URL" "http://localhost:8080").1 "" (by simp),
   (getVar_spec (fun k => if k = "SEARXNG_URL" then some "" else none)
      "OTHER" "fallback").2 (by simp)⟩

/-- C10: a well-formed body with the `results` key absent (`{}`), or the
body `null`, decodes successfully into the zero-valued response — nil
`Results`, nil `Suggestions` (the empty list in this model) — and
`Search` succeeds with a non-nil response on such bodies; an error arises
only when a present field has the wrong JSON type. -/
theorem decode_missing_fields_ok :
    unmarshalSearchResponse "\x7b\x7d" = .ok { results := [], suggestions := [] } ∧
    unmarshalSearchResponse "null" = .ok { results := [], suggestions := [] } ∧
    ((NewClient "http://localhost:8080").search "golang" none (.response 200 (.ok "\x7b\x7d"))).2 =
      { resp := some { results := [], suggestions := [] }, err := none } ∧
    ((NewClient "http://localhost:8080").search "golang" none (.response 200 (.ok "null"))).2 =
      { resp := some { results := [], suggestions := [] }, err := none } ∧
    unmarshalSearchResponse "\x7b\"results\": true\x7d" =
      .error "json: cannot unmarshal value into Go value of type []*searxng.SearchResult" :=
  ⟨rfl, rfl, rfl, rfl, rfl⟩

end Champollion
